import Mathlib

/- Verification of mdl_zip.py, a Source-engine model (.mdl) dependency
collector and packager.

Shallow embedding conventions:
  binary files are lists of byte values (`List Nat`, each < 256),
  text files are lists of lines (`List String`, newline already removed,
  matching iteration over a Python text file followed by `str.strip`),
  the filesystem is an association list from path to file,
  fallible operations return `Except`,
  `os.path.join` is modelled with POSIX separator rules,
  `str.decode` is modelled as byte-per-character decoding. -/

/-! ## Binary field reading (read_struct "I" and read_string) -/

/-- One little-endian unsigned 32-bit integer at byte position `pos`
(`read_struct(file, "I")` after a seek to `pos`); `none` when fewer than
4 bytes remain (`struct.error`). -/
def readU32 (bs : List Nat) (pos : Nat) : Option Nat :=
  match bs.get? pos, bs.get? (pos+1), bs.get? (pos+2), bs.get? (pos+3) with
  | some a, some b, some c, some d => some (a + 256 * b + 65536 * c + 16777216 * d)
  | _, _, _, _ => none

/-- The bytes of a null-terminated string: everything up to the first zero
byte, `none` when no zero byte occurs (in the source `read_string` then
loops forever, see `readStringFuelAux`). -/
def takeUntilNull : List Nat → Option (List Nat)
  | [] => none
  | b :: rest => if b = 0 then some [] else (takeUntilNull rest).map (b :: ·)

/-- `read_string(file, pos)`: seek to `pos`, then read up to the first null
byte. -/
def readCString (bs : List Nat) (pos : Nat) : Option (List Nat) :=
  takeUntilNull (bs.drop pos)

/-- Fuel-indexed model of the `while last_char != b"\x00"` loop of
`read_string`, acting on the stream suffix after the seek.  Each fuel unit
is one `file.read(1)` call.  At end of stream `file.read(1)` returns the
empty byte string, which differs from the null byte, so the loop repeats
without consuming anything: the `[]` case recurses on the same suffix. -/
def readStringFuelAux : List Nat → Nat → Option (List Nat)
  | _, 0 => none
  | [], fuel+1 => readStringFuelAux [] fuel
  | b :: rest, fuel+1 =>
    if b = 0 then some [] else (readStringFuelAux rest fuel).map (b :: ·)

/-- `read_string(file, pos)` as the fuel-indexed loop started at `pos`. -/
def readStringFuel (bs : List Nat) (pos fuel : Nat) : Option (List Nat) :=
  readStringFuelAux (bs.drop pos) fuel

/-- `bytes.decode()`, modelled byte-per-character. -/
def strOfBytes (l : List Nat) : String :=
  ⟨l.map Char.ofNat⟩

/-! ## POSIX path helpers (os.path.join, str.replace, str.split) -/

def startsSlash (s : String) : Bool :=
  match s.data with
  | [] => false
  | c :: _ => c = '/'

def endsSlash (s : String) : Bool :=
  match s.data.getLast? with
  | some c => c = '/'
  | none => false

/-- `os.path.join(a, b)` with POSIX separators. -/
def pathJoin (a b : String) : String :=
  if startsSlash b then b
  else if a.data = [] || endsSlash a then a ++ b
  else a ++ "/" ++ b

/-- `path.replace("\\", "/")` (character-wise replacement). -/
def normSlash (s : String) : String :=
  ⟨s.data.map (fun c => if c = '\\' then '/' else c)⟩

/-- `str.split("/")` on the character list (keeps empty segments, and the
empty string splits to one empty segment, as in Python). -/
def splitSlash : List Char → List (List Char)
  | [] => [[]]
  | c :: cs =>
    if c = '/' then [] :: splitSlash cs
    else
      match splitSlash cs with
      | s :: ss => (c :: s) :: ss
      | [] => [[c]]

/-- `"/".join(parts)`. -/
def joinSlash : List String → String
  | [] => ""
  | [s] => s
  | s :: rest => s ++ "/" ++ joinSlash rest

/-! ## VMT: the text material decoder -/

/-- Whitespace characters removed by Python `str.strip` (ASCII range). -/
def pyWhitespace (c : Char) : Bool :=
  c = ' ' || c = '\t' || c = '\n' || c = '\r' || c = '\x0b' || c = '\x0c'

/-- `line.strip()`. -/
def stripChars (cs : List Char) : List Char :=
  ((cs.dropWhile pyWhitespace).reverse.dropWhile pyWhitespace).reverse

def isQuote (c : Char) : Bool :=
  c = '"' || c = '\''

/-- `.replace('"', "").replace("'", "")`: every quote character anywhere in
the line is deleted. -/
def removeQuotes (cs : List Char) : List Char :=
  cs.filter (fun c => !(isQuote c))

/-- `line.partition(" ")` keeping the first and last component: splits at
the first space character; when there is no space the whole line is the
first component and the second is empty. -/
def partitionSpace : List Char → List Char × List Char
  | [] => ([], [])
  | c :: cs =>
    if c = ' ' then ([], cs)
    else
      let (a, b) := partitionSpace cs
      (c :: a, b)

/-- The recognized texture keywords of `VMT.texture_parameters`. -/
def VMT.texture_parameters : List String :=
  ["$basetexture", "$detail", "$bumpmap", "%tooltexture"]

/-- One iteration of the line loop in `VMT.from_file`: strip, delete
quotes, split at the first space, keep the value when the keyword is
recognized. -/
def processLine (line : String) : Option String :=
  let l := removeQuotes (stripChars line.data)
  let (parameter, value) := partitionSpace l
  if (⟨parameter⟩ : String) ∈ VMT.texture_parameters then some (⟨value⟩ : String)
  else none

/-- The `textures` list produced by `VMT.from_file` from the file's lines. -/
def VMT.fromLines (lines : List String) : List String :=
  lines.filterMap processLine

/-! ## split_model_path -/

deriving instance DecidableEq for Except

inductive PathError
  | invalidModelPath
deriving DecidableEq

/-- The segments of `path.replace("\\", "/").split("/")`. -/
def pathParts (path : String) : List String :=
  (splitSlash (normSlash path).data).map (fun cs => (⟨cs⟩ : String))

/-- `list.index("models")`: index of the first segment equal to
`"models"` (callers guard membership as the source asserts it). -/
def modelsIndex : List String → Nat
  | [] => 0
  | s :: rest => if s = "models" then 0 else modelsIndex rest + 1

/-- `split_model_path(path)`: `(game_dir, model_path)` split at the first
`"models"` segment, or the assertion error when no such segment exists. -/
def split_model_path (path : String) : Except PathError (String × String) :=
  let parts := pathParts path
  if "models" ∈ parts then
    .ok (joinSlash (parts.take (modelsIndex parts)),
         joinSlash (parts.drop (modelsIndex parts)))
  else .error .invalidModelPath


/-! ## MDL: the binary model decoder -/

inductive MdlError
  | malformedContainer
  | unsupportedVersion
  | ambiguousMaterialFolder
  | truncated
  | noNullTerminator
deriving DecidableEq

/-- `read_struct(file, "I")` at `pos`, a short read being `struct.error`. -/
def getU32 (bs : List Nat) (pos : Nat) : Except MdlError Nat :=
  match readU32 bs pos with
  | some v => .ok v
  | none => .error .truncated

/-- `read_string(file, pos).decode()`; a stream with no null terminator at
or after `pos` makes the source loop forever, modelled as
`.noNullTerminator`. -/
def readCStringE (bs : List Nat) (pos : Nat) : Except MdlError String :=
  match readCString bs pos with
  | some r => .ok (strOfBytes r)
  | none => .error .noNullTerminator

/-- The `read_struct(mdl_file, "I") for i in range(texture_dir_count)`
loop: `n` consecutive 32-bit reads starting at `pos`. -/
def readU32List (bs : List Nat) : Nat → Nat → Except MdlError (List Nat)
  | _, 0 => .ok []
  | pos, n+1 =>
    match getU32 bs pos with
    | .error e => .error e
    | .ok v =>
      match readU32List bs (pos+4) n with
      | .error e => .error e
      | .ok rest => .ok (v :: rest)

/-- The `read_string(mdl_file, offset) for offset in texture_dir_offsets`
loop. -/
def readCStrings (bs : List Nat) : List Nat → Except MdlError (List String)
  | [] => .ok []
  | off :: offs =>
    match readCStringE bs off with
    | .error e => .error e
    | .ok s =>
      match readCStrings bs offs with
      | .error e => .error e
      | .ok rest => .ok (s :: rest)

/-- The `read_struct(mdl_file, "16I") for i in range(texture_count)` loop,
keeping field 0 of each 64-byte record; record `i` starts at
`texOff + 64*i`, and a record crossing the end of the file is
`struct.error`. -/
def readRecordF0s (bs : List Nat) (texOff : Nat) : Nat → Nat → Except MdlError (List Nat)
  | _, 0 => .ok []
  | i, n+1 =>
    if texOff + 64 * i + 64 ≤ bs.length then
      match getU32 bs (texOff + 64 * i) with
      | .error e => .error e
      | .ok f0 =>
        match readRecordF0s bs texOff (i+1) n with
        | .error e => .error e
        | .ok rest => .ok (f0 :: rest)
    else .error .truncated

/-- The name-extraction loop of `MDL.from_file`: record `i`'s name string
is read at `texOff + 64*i + field0` (the name offset is relative to the
record's own start), and the material path is
`os.path.join("materials", texture_dir, texture_name)`. -/
def texNames (bs : List Nat) (texOff : Nat) (dir : String) : Nat → List Nat → Except MdlError (List String)
  | _, [] => .ok []
  | i, f0 :: rest =>
    match readCStringE bs (texOff + 64 * i + f0) with
    | .error e => .error e
    | .ok name =>
      match texNames bs texOff dir (i+1) rest with
      | .error e => .error e
      | .ok others => .ok (pathJoin (pathJoin "materials" dir) name :: others)

/-- `b"IDST"`. -/
def mdlMagic : List Nat := [0x49, 0x44, 0x53, 0x54]

/-- The texture part of `MDL.from_file`, from the seek to the header
fields at 0xCC onward: texture-table and texture-directory descriptors,
the single-texture-directory check, directory offsets and strings,
texture records, then the per-record names. -/
def MDL.readTextures (bs : List Nat) : Except MdlError (List String) :=
  match getU32 bs 0xCC with
  | .error e => .error e
  | .ok texture_count =>
    match getU32 bs 0xD0 with
    | .error e => .error e
    | .ok texture_offset =>
      match getU32 bs 0xD4 with
      | .error e => .error e
      | .ok texture_dir_count =>
        match getU32 bs 0xD8 with
        | .error e => .error e
        | .ok texture_dir_offset =>
          if texture_dir_count = 1 then
            match readU32List bs texture_dir_offset texture_dir_count with
            | .error e => .error e
            | .ok texture_dir_offsets =>
              match readCStrings bs texture_dir_offsets with
              | .error e => .error e
              | .ok texture_dirs =>
                match texture_dirs with
                | [] => .error .truncated
                | texture_dir :: _ =>
                  match readRecordF0s bs texture_offset 0 texture_count with
                  | .error e => .error e
                  | .ok f0s => texNames bs texture_offset texture_dir 0 f0s
          else .error .ambiguousMaterialFolder

/-- `MDL.from_file` on the container's bytes, producing the `materials`
list.  Mirrors the source order: magic assertion, version range check,
then the texture tables. -/
def MDL.fromBytes (bs : List Nat) : Except MdlError (List String) :=
  if bs.take 4 = mdlMagic then
    match getU32 bs 4 with
    | .error e => .error e
    | .ok version =>
      if 48 ≤ version ∧ version ≤ 52 then MDL.readTextures bs
      else .error .unsupportedVersion
  else .error .malformedContainer

/-! ## Synthetic containers used as concrete inputs -/

/-- A 32-bit little-endian literal as four bytes. -/
def u32 (n : Nat) : List Nat :=
  [n % 256, n / 256 % 256, n / 65536 % 256, n / 16777216 % 256]

/-- A null-terminated ASCII string as bytes. -/
def strz (s : String) : List Nat :=
  s.data.map Char.toNat ++ [0]

/-- A synthetic container: version 48, texture directory `"x"`, one
texture record at 0xE4 whose name offset 64 points (relative to the
record's start) at `"brick"` stored at absolute position 0x124. -/
def mdlBrick : List Nat :=
  mdlMagic ++ u32 48 ++ List.replicate 196 0
    ++ u32 1 ++ u32 0xE4 ++ u32 1 ++ u32 0xDC
    ++ u32 0xE0 ++ strz "x" ++ List.replicate 2 0
    ++ u32 64 ++ List.replicate 60 0
    ++ strz "brick"

/-- Like `mdlBrick` but with two texture records whose relative name
offsets (128 and 64) both land on the same `"brick"` string at 0x164. -/
def mdlBrickTwice : List Nat :=
  mdlMagic ++ u32 48 ++ List.replicate 196 0
    ++ u32 2 ++ u32 0xE4 ++ u32 1 ++ u32 0xDC
    ++ u32 0xE0 ++ strz "x" ++ List.replicate 2 0
    ++ u32 128 ++ List.replicate 60 0
    ++ u32 64 ++ List.replicate 60 0
    ++ strz "brick"

/-- A synthetic container with texture directory `"common"` and two
records naming `"a"` and `"b"`. -/
def mdlTwoMaterials : List Nat :=
  mdlMagic ++ u32 48 ++ List.replicate 196 0
    ++ u32 2 ++ u32 0xE8 ++ u32 1 ++ u32 0xDC
    ++ u32 0xE0 ++ strz "common" ++ List.replicate 1 0
    ++ u32 128 ++ List.replicate 60 0
    ++ u32 66 ++ List.replicate 60 0
    ++ strz "a" ++ strz "b"


/-! ## Filesystem model and the dependency collector -/

/-- A file on disk: binary content (opened `"rb"`) or text lines. -/
inductive VFile
  | bin (bytes : List Nat)
  | text (lines : List String)
deriving DecidableEq

/-- The filesystem: an association list from path to file. -/
abbrev FS := List (String × VFile)

def fsRead : FS → String → Option VFile
  | [], _ => none
  | (q, f) :: rest, p => if q = p then some f else fsRead rest p

def fsReadBin (fs : FS) (p : String) : Option (List Nat) :=
  match fsRead fs p with
  | some (.bin b) => some b
  | _ => none

def fsReadText (fs : FS) (p : String) : Option (List String) :=
  match fsRead fs p with
  | some (.text lines) => some lines
  | _ => none

inductive CollectError
  | mdlError (e : MdlError)
  | invalidModelPath
  | missingDependency (path : String)
deriving DecidableEq

/-- `MDL.from_file(path)`: open the container (a missing file is
`FileNotFoundError`) and decode it. -/
def MDL.from_file (fs : FS) (path : String) : Except CollectError (List String) :=
  match fsReadBin fs path with
  | none => .error (.missingDependency path)
  | some bs =>
    match MDL.fromBytes bs with
    | .error e => .error (.mdlError e)
    | .ok materials => .ok materials

/-- `VMT.from_file(path)`: open the material file (a missing file is
`FileNotFoundError`) and collect its texture values. -/
def VMT.from_file (fs : FS) (path : String) : Except CollectError (List String) :=
  match fsReadText fs path with
  | none => .error (.missingDependency path)
  | some lines => .ok (VMT.fromLines lines)

/-- The `VMT.from_file(os.path.join(game_dir, vmt) + ".vmt") for vmt in
mdl.materials` loop; the first missing material aborts the whole call
even though earlier materials were already decoded. -/
def parseVmts (fs : FS) (game_dir : String) : List String → Except CollectError (List (List String))
  | [] => .ok []
  | m :: ms =>
    match VMT.from_file fs (pathJoin game_dir m ++ ".vmt") with
    | .error e => .error e
    | .ok textures =>
      match parseVmts fs game_dir ms with
      | .error e => .error e
      | .ok rest => .ok (textures :: rest)

/-- `collect_files(model_path)`: decode the container, split the path,
then seed the file list with the relative model path, every material path
with `.vmt` appended, and every texture reference joined under
`"materials"` with `.vtf` appended, in that order. -/
def collect_files (fs : FS) (model_path : String) : Except CollectError (String × List String) :=
  match MDL.from_file fs model_path with
  | .error e => .error e
  | .ok materials =>
    match split_model_path model_path with
    | .error _ => .error .invalidModelPath
    | .ok (game_dir, rel_path) =>
      match parseVmts fs game_dir materials with
      | .error e => .error e
      | .ok texLists =>
        .ok (game_dir,
          rel_path :: materials.map (fun m => m ++ ".vmt")
            ++ (texLists.flatMap (fun ts => ts)).map
                (fun vtf => pathJoin "materials" vtf ++ ".vtf"))

/-! ## package: the archive writer -/

/-- The archive state inside `package`: the `zip_contents` dedup keys
(normalized zip paths) and the archive entries written so far (the
`os.path.join(mod_name, file_path)` arcnames, in write order). -/
structure ZipSt where
  contents : List String
  entries : List String
deriving DecidableEq

inductive PkgError
  | collect (model_path : String) (e : CollectError)
  | writeMissing (source_path : String)
deriving DecidableEq

/-- The inner `for file_path in copy_list` loop of `package`: skip
duplicates by normalized zip path, otherwise write the entry, which
requires the source file `os.path.join(game_dir, file_path)` to exist. -/
def writeFiles (fs : FS) (mod_name game_dir : String) : List String → ZipSt → ZipSt × Option String
  | [], st => (st, none)
  | file_path :: rest, st =>
    let zip_path := normSlash (pathJoin mod_name file_path)
    if zip_path ∈ st.contents then writeFiles fs mod_name game_dir rest st
    else
      match fsRead fs (pathJoin game_dir file_path) with
      | none => (st, some (pathJoin game_dir file_path))
      | some _ =>
        writeFiles fs mod_name game_dir rest
          ⟨st.contents ++ [zip_path], st.entries ++ [pathJoin mod_name file_path]⟩

/-- The outer `for game_dir, copy_list in map(collect_files, model_paths)`
loop of `package` (Python's `map` is lazy, so each model is collected only
after all previous models' files were written).  A raised error stops the
loop with the archive in its current state. -/
def packageModels (fs : FS) (mod_name : String) : List String → ZipSt → ZipSt × Option PkgError
  | [], st => (st, none)
  | p :: rest, st =>
    match collect_files fs p with
    | .error e => (st, some (.collect p e))
    | .ok (game_dir, copy_list) =>
      match writeFiles fs mod_name game_dir copy_list st with
      | (st', some missing) => (st', some (.writeMissing missing))
      | (st', none) => packageModels fs mod_name rest st'

/-- The observable outcome of `package`: `zipfile.ZipFile(..., "w")`
creates the archive before any model is processed, then models are
packaged in order until done or until the first error. -/
structure PackageOutcome where
  archiveCreated : Bool
  entries : List String
  error : Option PkgError
deriving DecidableEq

/-- `package(*model_paths, mod_name)`. -/
def package (fs : FS) (mod_name : String) (model_paths : List String) : PackageOutcome :=
  let (st, err) := packageModels fs mod_name model_paths ⟨[], []⟩
  ⟨true, st.entries, err⟩

/-! ## Concrete filesystems used as counterexample inputs -/

/-- Two materials whose `.vmt` files both reference texture
`"common/metal"`. -/
def fsDup : FS :=
  [("g/models/m.mdl", .bin mdlTwoMaterials),
   ("g/materials/common/a.vmt", .text ["$basetexture \"common/metal\""]),
   ("g/materials/common/b.vmt", .text ["$basetexture common/metal"])]

/-- `fsDup` plus the shared texture file, so every write can succeed. -/
def fsDupFull : FS :=
  fsDup ++ [("g/materials/common/metal.vtf", .bin [])]

/-- A complete first model next to a missing second model. -/
def fsPartial : FS :=
  [("g/models/a.mdl", .bin mdlBrick),
   ("g/materials/x/brick.vmt", .text ["$surfaceprop wood"])]

/-- `fsDup` with `b.vmt` removed: the second material file is missing. -/
def fsMissingVmt : FS :=
  [("g/models/m.mdl", .bin mdlTwoMaterials),
   ("g/materials/common/a.vmt", .text ["$basetexture \"common/metal\""])]

/-- A container whose header declares two texture directories
(`texture_dir_count = 2`). -/
def mdlTwoDirs : List Nat :=
  mdlMagic ++ u32 48 ++ List.replicate 196 0
    ++ u32 0 ++ u32 0 ++ u32 2 ++ u32 0

/-! # Theorems -/

/-! ## Helper lemmas about the read_string loop -/

theorem readStringFuelAux_of_mem (l : List Nat) (hl : 0 ∈ l) :
    ∀ fuel, (l.takeWhile (fun b => b != 0)).length < fuel →
      readStringFuelAux l fuel = some (l.takeWhile (fun b => b != 0)) := by
  induction l with
  | nil => cases hl
  | cons b rest ih =>
    intro fuel hf
    by_cases hb : b = 0
    · subst hb
      simp only [List.takeWhile] at hf ⊢
      cases fuel with
      | zero => cases hf
      | succ f => simp [readStringFuelAux]
    · have hmem : 0 ∈ rest := by
        rcases List.mem_cons.mp hl with h | h
        · exact absurd h.symm hb
        · exact h
      have hb' : (b != 0) = true := by simpa using hb
      simp only [List.takeWhile, hb', List.length_cons] at hf ⊢
      cases fuel with
      | zero => cases hf
      | succ f =>
        have hlt : (rest.takeWhile (fun b => b != 0)).length < f :=
          Nat.lt_of_succ_lt_succ hf
        simp [readStringFuelAux, hb, ih hmem f hlt]

theorem readStringFuelAux_of_not_mem :
    ∀ (fuel : Nat) (l : List Nat), 0 ∉ l → readStringFuelAux l fuel = none := by
  intro fuel
  induction fuel with
  | zero => intro l _; cases l <;> rfl
  | succ f ih =>
    intro l hl
    cases l with
    | nil => simpa [readStringFuelAux] using ih [] hl
    | cons b rest =>
      have hb : ¬ b = 0 := fun h => hl (by simp [h])
      have hrest : 0 ∉ rest := fun h => hl (List.mem_cons_of_mem _ h)
      simp [readStringFuelAux, hb, ih rest hrest]

/-- C9: `read_string(stream, offset)` terminates if and only if a null
byte occurs at or after the read position before end-of-stream; when one
does, enough fuel makes the loop return exactly the bytes before the
first null byte, and when none does, the loop returns nothing at every
fuel bound (end-of-stream reads yield an empty byte string that never
equals the null terminator, so the source loops forever). -/
theorem read_string_termination (bs : List Nat) (pos : Nat) :
    (0 ∈ bs.drop pos →
      ∀ fuel, ((bs.drop pos).takeWhile (fun b => b != 0)).length < fuel →
        readStringFuel bs pos fuel = some ((bs.drop pos).takeWhile (fun b => b != 0))) ∧
    (0 ∉ bs.drop pos → ∀ fuel, readStringFuel bs pos fuel = none) := by
  constructor
  · intro h fuel hf
    exact readStringFuelAux_of_mem (bs.drop pos) h fuel hf
  · intro h fuel
    exact readStringFuelAux_of_not_mem fuel (bs.drop pos) h

theorem read_string_termination_witness :
    (0 ∈ ([104, 105, 0, 7] : List Nat).drop 0 ∧
      readStringFuel [104, 105, 0, 7] 0 3 = some [104, 105]) ∧
    (0 ∉ ([1, 2] : List Nat).drop 0 ∧
      readStringFuel [1, 2] 0 99 = none) :=
  ⟨⟨by decide, (read_string_termination [104, 105, 0, 7] 0).1 (by decide) 3 (by decide)⟩,
   ⟨by decide, (read_string_termination [1, 2] 0).2 (by decide) 99⟩⟩

/-! ## C4: relative texture-name offsets -/

set_option maxRecDepth 10000 in
/-- C4: each texture record's name is read at
`texture_table_offset + 64*i + field0` (an offset relative to the
record's own start): the synthetic container with texture directory
`"x"` and one record whose relative name offset points at `"brick"`
decodes to exactly `["materials/x/brick"]`, and a container with two
records pointing at the same name keeps both occurrences in table
order. -/
theorem mdl_relative_name_offset :
    MDL.fromBytes mdlBrick = .ok ["materials/x/brick"] ∧
    MDL.fromBytes mdlBrickTwice = .ok ["materials/x/brick", "materials/x/brick"] := by
  constructor
  · decide
  · decide

/-! ## C7: split_model_path -/

/-- C7: `split_model_path` splits at the first `"models"` segment —
`"C:/games/mygame/models/props/chair.mdl"` yields
`("C:/games/mygame", "models/props/chair.mdl")`, a path with two
`"models"` segments splits at the first — and every path with no
`"models"` segment fails with the invalid-model-path error. -/
theorem split_model_path_spec :
    split_model_path "C:/games/mygame/models/props/chair.mdl" =
      .ok ("C:/games/mygame", "models/props/chair.mdl") ∧
    split_model_path "a/models/b/models/c.mdl" =
      .ok ("a", "models/b/models/c.mdl") ∧
    ∀ path : String, "models" ∉ pathParts path →
      split_model_path path = .error .invalidModelPath := by
  refine ⟨by decide, by decide, ?_⟩
  intro path h
  simp [split_model_path, h]

theorem split_model_path_spec_witness :
    "models" ∉ pathParts "C:/games/mygame/props/chair.mdl" ∧
    split_model_path "C:/games/mygame/props/chair.mdl" = .error .invalidModelPath :=
  ⟨by decide, split_model_path_spec.2.2 "C:/games/mygame/props/chair.mdl" (by decide)⟩

/-! ## C10: quote characters are removed everywhere in a line -/

/-- C10: the material decoder deletes every quote character anywhere in
the line before splitting, so a quote embedded inside a keyword
(`$base"texture`) still yields the recognized keyword `$basetexture` and
its value is collected, and quotes embedded inside a value are deleted
too. -/
theorem vmt_quotes_removed_everywhere :
    VMT.fromLines ["$base\"texture wood/floor"] = ["wood/floor"] ∧
    VMT.fromLines ["$detail a\"b'c"] = ["abc"] := by
  decide

/-! ## C3: the split is at the first space character, not whitespace run -/

/-- C3 counterexample: on the line `$basetexture  wood/floor` (two
spaces) the decoder splits at the first space character only, so the
collected value keeps the second space — splitting on the first
whitespace run would have produced `"wood/floor"`. -/
theorem vmt_space_split_counterexample :
    VMT.fromLines ["$basetexture  wood/floor"] = [" wood/floor"] ∧
    ¬ VMT.fromLines ["$basetexture  wood/floor"] = ["wood/floor"] := by
  decide

/-! ## Error-shape lemmas for the MDL decoder -/

theorem getU32_error {bs : List Nat} {pos : Nat} {e : MdlError}
    (h : getU32 bs pos = .error e) : e = .truncated := by
  unfold getU32 at h
  cases hr : readU32 bs pos <;> rw [hr] at h <;> simp_all

theorem readCStringE_error {bs : List Nat} {pos : Nat} {e : MdlError}
    (h : readCStringE bs pos = .error e) : e = .noNullTerminator := by
  unfold readCStringE at h
  cases hr : readCString bs pos <;> rw [hr] at h <;> simp_all

theorem readU32List_error {bs : List Nat} :
    ∀ {n pos : Nat} {e : MdlError}, readU32List bs pos n = .error e → e = .truncated := by
  intro n
  induction n with
  | zero => intro pos e h; simp [readU32List] at h
  | succ k ih =>
    intro pos e h
    unfold readU32List at h
    cases hg : getU32 bs pos <;> rw [hg] at h
    · simp only [Except.error.injEq] at h
      exact h ▸ getU32_error hg
    · cases hr : readU32List bs (pos+4) k <;> rw [hr] at h
      · simp only [Except.error.injEq] at h
        exact h ▸ ih hr
      · simp at h

theorem readCStrings_error {bs : List Nat} :
    ∀ {offs : List Nat} {e : MdlError}, readCStrings bs offs = .error e → e = .noNullTerminator := by
  intro offs
  induction offs with
  | nil => intro e h; simp [readCStrings] at h
  | cons off rest ih =>
    intro e h
    unfold readCStrings at h
    cases hg : readCStringE bs off <;> rw [hg] at h
    · simp only [Except.error.injEq] at h
      exact h ▸ readCStringE_error hg
    · cases hr : readCStrings bs rest <;> rw [hr] at h
      · simp only [Except.error.injEq] at h
        exact h ▸ ih hr
      · simp at h

theorem readRecordF0s_error {bs : List Nat} {texOff : Nat} :
    ∀ {n i : Nat} {e : MdlError}, readRecordF0s bs texOff i n = .error e → e = .truncated := by
  intro n
  induction n with
  | zero => intro i e h; simp [readRecordF0s] at h
  | succ k ih =>
    intro i e h
    unfold readRecordF0s at h
    by_cases hb : texOff + 64 * i + 64 ≤ bs.length
    · rw [if_pos hb] at h
      cases hg : getU32 bs (texOff + 64 * i) <;> rw [hg] at h
      · simp only [Except.error.injEq] at h
        exact h ▸ getU32_error hg
      · cases hr : readRecordF0s bs texOff (i+1) k <;> rw [hr] at h
        · simp only [Except.error.injEq] at h
          exact h ▸ ih hr
        · simp at h
    · rw [if_neg hb] at h
      simp only [Except.error.injEq] at h
      exact h.symm

theorem texNames_error {bs : List Nat} {texOff : Nat} {dir : String} :
    ∀ {f0s : List Nat} {i : Nat} {e : MdlError},
      texNames bs texOff dir i f0s = .error e → e = .noNullTerminator := by
  intro f0s
  induction f0s with
  | nil => intro i e h; simp [texNames] at h
  | cons f0 rest ih =>
    intro i e h
    unfold texNames at h
    cases hg : readCStringE bs (texOff + 64 * i + f0) <;> rw [hg] at h
    · simp only [Except.error.injEq] at h
      exact h ▸ readCStringE_error hg
    · cases hr : texNames bs texOff dir (i+1) rest <;> rw [hr] at h
      · simp only [Except.error.injEq] at h
        exact h ▸ ih hr
      · simp at h

/-- The computation after the version check never produces the
unsupported-version error: its only failures are truncation, a missing
null terminator, or the ambiguous-material-folder error. -/
theorem readTextures_ne_uv (bs : List Nat) :
    MDL.readTextures bs ≠ Except.error MdlError.unsupportedVersion := by
  intro h
  unfold MDL.readTextures at h
  cases hcc : getU32 bs 0xCC <;> rw [hcc] at h
  case error =>
    simp only [Except.error.injEq] at h
    subst h; simpa using getU32_error hcc
  case ok tc =>
  cases hd0 : getU32 bs 0xD0 <;> rw [hd0] at h
  case error =>
    simp only [Except.error.injEq] at h
    subst h; simpa using getU32_error hd0
  case ok toff =>
  cases hd4 : getU32 bs 0xD4 <;> rw [hd4] at h
  case error =>
    simp only [Except.error.injEq] at h
    subst h; simpa using getU32_error hd4
  case ok dc =>
  cases hd8 : getU32 bs 0xD8 <;> rw [hd8] at h
  case error =>
    simp only [Except.error.injEq] at h
    subst h; simpa using getU32_error hd8
  case ok doff =>
  dsimp only [] at h
  by_cases hdc : dc = 1
  · rw [if_pos hdc] at h
    cases hro : readU32List bs doff dc <;> rw [hro] at h
    · simp only [Except.error.injEq] at h
      subst h; simpa using readU32List_error hro
    · rename_i offs
      dsimp only [] at h
      cases hrs : readCStrings bs offs <;> rw [hrs] at h
      · simp only [Except.error.injEq] at h
        subst h; simpa using readCStrings_error hrs
      · rename_i dirs
        dsimp only [] at h
        cases dirs with
        | nil => simp at h
        | cons dir rest =>
          dsimp only [] at h
          cases hf0 : readRecordF0s bs toff 0 tc <;> rw [hf0] at h
          · simp only [Except.error.injEq] at h
            subst h; simpa using readRecordF0s_error hf0
          · dsimp only [] at h
            simpa using texNames_error h
  · rw [if_neg hdc] at h
    simp at h

/-! ## C5: the version gate -/

/-- C5: for a container with the valid magic signature, decoding fails
with the unsupported-version error exactly when the 4-byte unsigned
version field lies outside the inclusive range 48..52; the bytes after
the 8-byte prologue are arbitrary, so an out-of-range version fails
before any texture data is read, and an in-range version can never
produce that error later. -/
theorem mdl_version_gate (bs : List Nat) (v : Nat)
    (hm : bs.take 4 = mdlMagic) (hv : readU32 bs 4 = some v) :
    MDL.fromBytes bs = .error .unsupportedVersion ↔ ¬ (48 ≤ v ∧ v ≤ 52) := by
  have hg : getU32 bs 4 = .ok v := by simp [getU32, hv]
  simp only [MDL.fromBytes, if_pos hm, hg]
  by_cases hr : 48 ≤ v ∧ v ≤ 52
  · rw [if_pos hr]
    simp [readTextures_ne_uv bs, hr]
  · rw [if_neg hr]
    simp [hr]

theorem mdl_version_gate_witness :
    ((mdlMagic ++ u32 53).take 4 = mdlMagic ∧ readU32 (mdlMagic ++ u32 53) 4 = some 53) ∧
    MDL.fromBytes (mdlMagic ++ u32 53) = .error .unsupportedVersion :=
  ⟨⟨by decide, by decide⟩,
    (mdl_version_gate (mdlMagic ++ u32 53) 53 (by decide) (by decide)).mpr (by decide)⟩

/-! ## C6: the single-texture-directory gate -/

/-- C6: whenever the header's `texture_dir_count` field is not exactly 1,
decoding fails with the ambiguous-material-folder error, for every value
of `texture_count` (including zero) and regardless of every byte beyond
the header fields, so neither a texture directory nor a texture record
is ever read. -/
theorem mdl_ambiguous_material_folder (bs : List Nat) (v tc toff dc doff : Nat)
    (hm : bs.take 4 = mdlMagic) (hv : readU32 bs 4 = some v)
    (h48 : 48 ≤ v) (h52 : v ≤ 52)
    (hcc : readU32 bs 0xCC = some tc) (hd0 : readU32 bs 0xD0 = some toff)
    (hd4 : readU32 bs 0xD4 = some dc) (hd8 : readU32 bs 0xD8 = some doff)
    (hdc : dc ≠ 1) :
    MDL.fromBytes bs = .error .ambiguousMaterialFolder := by
  simp only [MDL.fromBytes, if_pos hm, show getU32 bs 4 = .ok v by simp [getU32, hv],
    if_pos (⟨h48, h52⟩ : 48 ≤ v ∧ v ≤ 52), MDL.readTextures,
    show getU32 bs 0xCC = .ok tc by simp [getU32, hcc],
    show getU32 bs 0xD0 = .ok toff by simp [getU32, hd0],
    show getU32 bs 0xD4 = .ok dc by simp [getU32, hd4],
    show getU32 bs 0xD8 = .ok doff by simp [getU32, hd8],
    if_neg hdc]

theorem mdl_ambiguous_material_folder_witness :
    readU32 mdlTwoDirs 0xD4 = some 2 ∧
    MDL.fromBytes mdlTwoDirs = .error .ambiguousMaterialFolder :=
  ⟨by decide,
    mdl_ambiguous_material_folder mdlTwoDirs 48 0 0 2 0 (by decide) (by decide)
      (by decide) (by decide) (by decide) (by decide) (by decide) (by decide) (by decide)⟩

/-! ## Helper lemmas about package -/

theorem package_proj (fs : FS) (mod_name : String) (paths : List String) :
    (package fs mod_name paths).entries = (packageModels fs mod_name paths ⟨[], []⟩).1.entries ∧
    (package fs mod_name paths).error = (packageModels fs mod_name paths ⟨[], []⟩).2 := by
  unfold package
  rcases hp : packageModels fs mod_name paths ⟨[], []⟩ with ⟨st, err⟩
  exact ⟨rfl, rfl⟩

theorem writeFiles_inv (fs : FS) (mod_name game_dir : String) :
    ∀ (files : List String) (st : ZipSt),
      st.contents = st.entries.map normSlash → st.contents.Nodup →
      ((writeFiles fs mod_name game_dir files st).1.contents =
        (writeFiles fs mod_name game_dir files st).1.entries.map normSlash) ∧
      (writeFiles fs mod_name game_dir files st).1.contents.Nodup := by
  intro files
  induction files with
  | nil => intro st h1 h2; exact ⟨h1, h2⟩
  | cons f rest ih =>
    intro st h1 h2
    unfold writeFiles
    dsimp only []
    by_cases hm : normSlash (pathJoin mod_name f) ∈ st.contents
    · rw [if_pos hm]
      exact ih st h1 h2
    · rw [if_neg hm]
      cases hr : fsRead fs (pathJoin game_dir f)
      · exact ⟨h1, h2⟩
      · apply ih
        · simp [h1]
        · refine (List.nodup_append).mpr ⟨h2, List.nodup_singleton _, ?_⟩
          intro a ha hb
          rcases List.mem_singleton.mp hb with rfl
          exact hm ha
  
theorem packageModels_inv (fs : FS) (mod_name : String) :
    ∀ (paths : List String) (st : ZipSt),
      st.contents = st.entries.map normSlash → st.contents.Nodup →
      ((packageModels fs mod_name paths st).1.contents =
        (packageModels fs mod_name paths st).1.entries.map normSlash) ∧
      (packageModels fs mod_name paths st).1.contents.Nodup := by
  intro paths
  induction paths with
  | nil => intro st h1 h2; exact ⟨h1, h2⟩
  | cons p rest ih =>
    intro st h1 h2
    unfold packageModels
    cases hc : collect_files fs p
    · exact ⟨h1, h2⟩
    · rename_i val
      rcases val with ⟨gd, files⟩
      dsimp only []
      rcases hw : writeFiles fs mod_name gd files st with ⟨st', w⟩
      have hinv := writeFiles_inv fs mod_name gd files st h1 h2
      rw [hw] at hinv
      cases w
      · exact ih st' hinv.1 hinv.2
      · exact ⟨hinv.1, hinv.2⟩

/-! ## C1: the collector's list is not deduplicated; the archive is -/

set_option maxRecDepth 10000 in
/-- C1 counterexample: collecting a model whose two materials both
reference texture `"common/metal"` returns a file list in which the fully
joined texture path `"materials/common/metal.vtf"` appears twice, so the
list returned by `collect_files` is not deduplicated. -/
theorem collect_files_not_deduplicated :
    collect_files fsDup "g/models/m.mdl" =
      .ok ("g", ["models/m.mdl", "materials/common/a.vmt", "materials/common/b.vmt",
        "materials/common/metal.vtf", "materials/common/metal.vtf"]) ∧
    (["models/m.mdl", "materials/common/a.vmt", "materials/common/b.vmt",
      "materials/common/metal.vtf", "materials/common/metal.vtf"].count
        "materials/common/metal.vtf") = 2 := by
  constructor
  · decide
  · decide

set_option maxRecDepth 10000 in
/-- C1 amended: deduplication happens in `package`, not in
`collect_files`: for every run the normalized zip paths of the entries
written to the archive are pairwise distinct, and concretely, packaging
the same model twice in one run writes each dependency exactly once,
with the shared texture appearing exactly once. -/
theorem package_entries_deduplicated :
    (∀ (fs : FS) (mod_name : String) (paths : List String),
      ((package fs mod_name paths).entries.map normSlash).Nodup) ∧
    package fsDupFull "custom_mod" ["g/models/m.mdl", "g/models/m.mdl"] =
      ⟨true, ["custom_mod/models/m.mdl", "custom_mod/materials/common/a.vmt",
        "custom_mod/materials/common/b.vmt", "custom_mod/materials/common/metal.vtf"],
        none⟩ := by
  constructor
  · intro fs mod_name paths
    have hinv := packageModels_inv fs mod_name paths ⟨[], []⟩ rfl List.nodup_nil
    rw [(package_proj fs mod_name paths).1, ← hinv.1]
    exact hinv.2
  · decide

/-! ## C2: a failed run can leave a partial archive -/

set_option maxRecDepth 10000 in
/-- C2 counterexample: in a two-model run whose second model file is
missing, the run fails, yet the archive was created and already contains
the first model's entries — a partial output artifact exists after the
failed run. -/
theorem package_partial_archive_on_failure :
    package fsPartial "custom_mod" ["g/models/a.mdl", "g/models/missing.mdl"] =
      ⟨true, ["custom_mod/models/a.mdl", "custom_mod/materials/x/brick.vmt"],
        some (.collect "g/models/missing.mdl" (.missingDependency "g/models/missing.mdl"))⟩ ∧
    ["custom_mod/models/a.mdl", "custom_mod/materials/x/brick.vmt"] ≠ ([] : List String) := by
  constructor
  · decide
  · decide

/-- C2 amended: a failing model aborts the run at that point — the
failing model contributes no entries and the models after it are never
processed — but the archive itself was created before any model was
processed, and entries written for earlier models remain (see the
counterexample). -/
theorem package_aborts_at_failed_model (fs : FS) (mod_name p : String)
    (rest : List String) (st : ZipSt) (e : CollectError)
    (h : collect_files fs p = .error e) :
    packageModels fs mod_name (p :: rest) st = (st, some (.collect p e)) := by
  unfold packageModels
  rw [h]

theorem package_aborts_at_failed_model_witness :
    collect_files [] "x" = .error (.missingDependency "x") ∧
    packageModels [] "custom_mod" ["x", "y"] ⟨[], []⟩ =
      (⟨[], []⟩, some (.collect "x" (.missingDependency "x"))) :=
  ⟨by decide,
    package_aborts_at_failed_model [] "custom_mod" "x" ["y"] ⟨[], []⟩
      (.missingDependency "x") (by decide)⟩

/-! ## C8: a missing material file fails the whole collection -/

theorem parseVmts_missing (fs : FS) (game_dir : String) :
    ∀ (ms : List String) (m : String), m ∈ ms →
      fsReadText fs (pathJoin game_dir m ++ ".vmt") = none →
      ∃ p, parseVmts fs game_dir ms = .error (.missingDependency p) := by
  intro ms
  induction ms with
  | nil => intro m hm; cases hm
  | cons m0 tl ih =>
    intro m hm hf
    cases h0 : fsReadText fs (pathJoin game_dir m0 ++ ".vmt")
    · exact ⟨pathJoin game_dir m0 ++ ".vmt", by simp [parseVmts, VMT.from_file, h0]⟩
    · have hne : m ≠ m0 := by
        intro he
        rw [he] at hf
        rw [hf] at h0
        cases h0
      have hmem : m ∈ tl := by
        rcases List.mem_cons.mp hm with h | h
        · exact absurd h hne
        · exact h
      obtain ⟨p, hp⟩ := ih m hmem hf
      exact ⟨p, by simp [parseVmts, VMT.from_file, h0, hp]⟩

theorem packageModels_err_of_bad (fs : FS) (mod_name : String) :
    ∀ (paths : List String) (p : String) (e : CollectError) (st : ZipSt),
      collect_files fs p = .error e → p ∈ paths →
      (packageModels fs mod_name paths st).2 ≠ none := by
  intro paths
  induction paths with
  | nil => intro p e st _ hm; cases hm
  | cons q tl ih =>
    intro p e st hc hm
    unfold packageModels
    cases hq : collect_files fs q
    · simp
    · rename_i val
      rcases val with ⟨gd, files⟩
      dsimp only []
      rcases hw : writeFiles fs mod_name gd files st with ⟨st', w⟩
      cases w
      · have hne : p ≠ q := by
          intro he
          rw [he] at hc
          rw [hc] at hq
          cases hq
        have hmem : p ∈ tl := by
          rcases List.mem_cons.mp hm with h | h
          · exact absurd h hne
          · exact h
        exact ih p e st' hc hmem
      · simp

/-- C8: when a material referenced by a successfully decoded model has no
`.vmt` file on disk, `collect_files` fails with a missing-dependency
error (returning no bundle, even though every material before it was
decodable), and every multi-model `package` run containing that model
reports an error.  (Texture files are never opened during traversal, so
only the model and material files can fail to open here.) -/
theorem collect_missing_vmt_fails (fs : FS) (mp game_dir rel : String)
    (ms : List String) (m : String)
    (hmdl : MDL.from_file fs mp = .ok ms)
    (hsplit : split_model_path mp = .ok (game_dir, rel))
    (hm : m ∈ ms)
    (hf : fsReadText fs (pathJoin game_dir m ++ ".vmt") = none) :
    (∃ p, collect_files fs mp = .error (.missingDependency p)) ∧
    (∀ (mod_name : String) (paths : List String), mp ∈ paths →
      (package fs mod_name paths).error ≠ none) := by
  obtain ⟨p, hp⟩ := parseVmts_missing fs game_dir ms m hm hf
  have hc : collect_files fs mp = .error (.missingDependency p) := by
    simp [collect_files, hmdl, hsplit, hp]
  refine ⟨⟨p, hc⟩, ?_⟩
  intro mod_name paths hmem
  rw [(package_proj fs mod_name paths).2]
  exact packageModels_err_of_bad fs mod_name paths mp (.missingDependency p) ⟨[], []⟩ hc hmem

set_option maxRecDepth 10000 in
theorem collect_missing_vmt_fails_witness :
    fsReadText fsMissingVmt "g/materials/common/b.vmt" = none ∧
    (∃ p, collect_files fsMissingVmt "g/models/m.mdl" = .error (.missingDependency p)) ∧
    (package fsMissingVmt "custom_mod" ["g/models/m.mdl"]).error ≠ none := by
  have h := collect_missing_vmt_fails fsMissingVmt "g/models/m.mdl" "g" "models/m.mdl"
    ["materials/common/a", "materials/common/b"] "materials/common/b"
    (by decide) (by decide) (by decide) (by decide)
  exact ⟨by decide, h.1, h.2 "custom_mod" ["g/models/m.mdl"] (by decide)⟩

/-! ## C3 amended: the split is exactly at the first space character -/

theorem removeQuotes_eq_self (l : List Char) (h : ∀ c ∈ l, isQuote c = false) :
    removeQuotes l = l := by
  unfold removeQuotes
  induction l with
  | nil => rfl
  | cons c cs ih =>
    have hc : isQuote c = false := h c (List.mem_cons_self c cs)
    have ih' := ih (fun x hx => h x (List.mem_cons_of_mem _ hx))
    simp [hc, ih']

theorem partitionSpace_append (ks vs : List Char) (h : ∀ c ∈ ks, ¬ c = ' ') :
    partitionSpace (ks ++ ' ' :: vs) = (ks, vs) := by
  induction ks with
  | nil => simp [partitionSpace]
  | cons c cs ih =>
    have hc : ¬ c = ' ' := h c (List.mem_cons_self c cs)
    have ih' := ih (fun x hx => h x (List.mem_cons_of_mem _ hx))
    simp [partitionSpace, hc, ih']

/-- C3 amended: the decoder strips surrounding whitespace, removes quote
characters, and splits at the first space character (not the first
whitespace run, see the counterexample) into a keyword and a value,
collecting the value exactly when the keyword matches one of the four
recognized keywords case-sensitively; the spec's three-line example
decodes to exactly `["wood/floor", "wood/floor_normal"]` in line order. -/
theorem vmt_first_space_split :
    VMT.fromLines ["$basetexture \"wood/floor\"", "$surfaceprop wood",
      "$bumpmap 'wood/floor_normal'"] = ["wood/floor", "wood/floor_normal"] ∧
    ∀ (ks vs : List Char),
      stripChars (ks ++ ' ' :: vs) = ks ++ ' ' :: vs →
      (∀ c ∈ ks, ¬ c = ' ' ∧ isQuote c = false) →
      (∀ c ∈ vs, isQuote c = false) →
      processLine ⟨ks ++ ' ' :: vs⟩ =
        if (⟨ks⟩ : String) ∈ VMT.texture_parameters then some (⟨vs⟩ : String)
        else none := by
  constructor
  · decide
  · intro ks vs h1 h2 h3
    have hq : ∀ c ∈ ks ++ ' ' :: vs, isQuote c = false := by
      intro c hc
      rcases List.mem_append.mp hc with h | h
      · exact (h2 c h).2
      · rcases List.mem_cons.mp h with rfl | h
        · rfl
        · exact h3 c h
    simp only [processLine]
    rw [h1, removeQuotes_eq_self _ hq,
      partitionSpace_append ks vs (fun c hc => (h2 c hc).1)]

theorem vmt_first_space_split_witness :
    stripChars ("$bumpmap".data ++ ' ' :: "wood/floor_normal".data) =
      "$bumpmap".data ++ ' ' :: "wood/floor_normal".data ∧
    processLine ⟨"$bumpmap".data ++ ' ' :: "wood/floor_normal".data⟩ =
      some "wood/floor_normal" := by
  refine ⟨by decide, ?_⟩
  rw [vmt_first_space_split.2 "$bumpmap".data "wood/floor_normal".data
    (by decide) (by decide) (by decide)]
  decide
